import Mathlib

/-!
Shallow embedding of the bitcask storage engine (kekecc/bitcask) used to check
the natural-language specification against the source.

Bytes are modelled as `Nat` (values of Rust `u8` are always < 256); machine
integers (`u32`, `u64`, `usize`) are modelled as `Nat`, with `% 2 ^ w` written
explicitly at the places the source performs a truncating cast (`as u32`,
`put_u32`, ...).  Fallible Rust code (`anyhow::Result`) is modelled with an
explicit error type, and places where the source can panic (`unwrap`,
`expect`, `unreachable!`, out-of-range `bytes::Buf` reads) are modelled by a
distinct `panic` outcome.
-/

set_option maxRecDepth 10000

/-- Byte strings (`Vec<u8>` / `Key` / `Value` in `src/key.rs`). -/
abbrev Key := List Nat

/-- Big-endian encoding of `n` into `len` bytes, as done by `put_u64` /
`put_u32` in `bytes::BufMut` (high byte first; the value is implicitly
truncated to `len` bytes, matching the `u64` / `u32` argument types and the
`as u32` casts in the source). -/
def beBytes (n : Nat) : Nat → List Nat
  | 0 => []
  | k + 1 => (n / 2 ^ (8 * k)) % 256 :: beBytes n k

/-- Big-endian decoding of a byte list, as done by `u64::from_be_bytes` /
`u32::from_be_bytes` / `get_u64` / `get_u32` (each element is a `u8`, hence
the `% 256`). -/
def beToNat (l : List Nat) : Nat :=
  l.foldl (fun acc b => acc * 256 + b % 256) 0

/-- The last `n` bytes of a buffer (`last_chunk::<N>()` on a slice, after the
caller has checked the buffer is long enough). -/
def lastN (n : Nat) (l : List Nat) : List Nat :=
  l.drop (l.length - n)

/-- Reflected CRC-32 (IEEE) generator polynomial used by the `crc32fast`
crate. -/
def crc32Poly : Nat := 0xEDB88320

/-- One bit-step of the reflected CRC-32 update. -/
def crcStep (s : Nat) : Nat :=
  if s % 2 = 1 then (s / 2) ^^^ crc32Poly else s / 2

/-- Fold one input byte into the CRC-32 state (8 bit-steps). -/
def crcByte (s b : Nat) : Nat :=
  crcStep (crcStep (crcStep (crcStep (crcStep (crcStep (crcStep (crcStep (s ^^^ (b % 256)))))))))

/-- `get_crc_32` in `src/data/log_record.rs`: the standard CRC-32 (IEEE)
checksum computed by `crc32fast::Hasher` (init `0xFFFFFFFF`, reflected,
xor-out `0xFFFFFFFF`). -/
def get_crc_32 (l : List Nat) : Nat :=
  (l.foldl crcByte 0xFFFFFFFF) ^^^ 0xFFFFFFFF

/-- `RecordType` in `src/data/log_record.rs`. -/
inductive RecordType where
  | deleted
  | normal
  deriving DecidableEq, Repr

/-- `BatchState` in `src/data/log_record.rs`.  The sequence is a Rust `u64`. -/
inductive BatchState where
  | enable (seq : Nat)
  | finish (seq : Nat)
  | disable
  deriving DecidableEq, Repr

/-- `Record` in `src/data/log_record.rs` (field order as in the source). -/
structure Record where
  record_type : RecordType
  key : Key
  value : Key
  batch_state : BatchState
  deriving DecidableEq, Repr

/-- `RecordPosition` in `src/data/log_record.rs`. -/
structure RecordPosition where
  file_id : Nat
  offset : Nat
  size : Nat
  deriving DecidableEq, Repr

/-- `RecordPosition::new`. -/
def RecordPosition.new (file_id offset size : Nat) : RecordPosition :=
  ⟨file_id, offset, size⟩

/-- `RecordPosition::encode`: `put_u32(file_id); put_u64(offset); put_u32(size)`. -/
def RecordPosition.encode (p : RecordPosition) : List Nat :=
  beBytes p.file_id 4 ++ beBytes p.offset 8 ++ beBytes p.size 4

/-- `Record::normal`. -/
def Record.normal (key value : Key) : Record :=
  ⟨.normal, key, value, .disable⟩

/-- `Record::deleted` (tombstone; empty value). -/
def Record.deleted (key : Key) : Record :=
  ⟨.deleted, key, [], .disable⟩

/-- The reserved batch-finish key `"BF"` (ASCII). -/
def bfKey : Key := [66, 70]

/-- `Record::batch_finished(seq)`: key `"BF"`, `Normal`, empty value,
`Finish(seq)`. -/
def Record.batch_finished (seq : Nat) : Record :=
  ⟨.normal, bfKey, [], .finish seq⟩

/-- The type byte written by `Record::encode` (`Deleted` = 0, `Normal` = 1). -/
def RecordType.typeByte : RecordType → Nat
  | .deleted => 0
  | .normal => 1

/-- The batch-state descriptor bytes written by `Record::encode`
(tag 0 = `Enable`, 1 = `Finish`, 2 = `Disable`; tags 0 and 1 are followed by
the 8-byte big-endian sequence). -/
def batchTagBytes : BatchState → List Nat
  | .enable seq => 0 :: beBytes seq 8
  | .finish seq => 1 :: beBytes seq 8
  | .disable => [2]

/-- `Record::get_encode_len`: 8 (length prefix) + 1 (type) + 1 (batch tag)
+ 4 + 4 (key/value lengths) + 4 (CRC) + key + value, plus 8 more when the
batch state carries a sequence. -/
def Record.get_encode_len (r : Record) : Nat :=
  8 + 1 + 1 + 4 * 2 + 4 + r.key.length + r.value.length +
    (match r.batch_state with
     | .enable _ => 8
     | .finish _ => 8
     | .disable => 0)

/-- All bytes of `Record::encode` before the trailing CRC (the bytes the CRC
is computed over). -/
def Record.encodeBody (r : Record) : List Nat :=
  beBytes r.get_encode_len 8 ++
    [r.record_type.typeByte] ++
    batchTagBytes r.batch_state ++
    beBytes r.key.length 4 ++
    beBytes r.value.length 4 ++
    r.key ++
    r.value

/-- `Record::encode`: the body followed by the big-endian CRC-32 of the body. -/
def Record.encode (r : Record) : List Nat :=
  r.encodeBody ++ beBytes (get_crc_32 r.encodeBody) 4

/-- Errors surfaced by the modelled code paths, one constructor per
`anyhow::Error::msg` site that the claims touch. -/
inductive BErr where
  /-- "check crc32 error!" in `RecordReader::decode_from_vec`. -/
  | crcMismatch
  /-- "wrong record type!" in `RecordType::try_from`. -/
  | wrongRecordType
  /-- "read record with size == 0" in `RecordReader::decode`. -/
  | readSizeZero
  /-- "key is not valid!" in `check_key_valid`. -/
  | keyInvalid
  /-- "key not found!" in `SkipList::delete`. -/
  | indexKeyNotFound
  /-- "txn search: key not found!" in `SkipList::txn_prefix_search`. -/
  | txnSearchNotFound
  /-- "txn conflict!" in `SkipList::txn_prefix_search`. -/
  | txnConflict
  /-- "batch write: exceed max size!" in `BatchWrite::commit`. -/
  | batchTooLarge
  /-- "get: key not found!" in `Bitcask::get`. -/
  | getKeyNotFound
  /-- "get: key has been deleted!" in `Bitcask::get`. -/
  | getKeyDeleted
  deriving DecidableEq, Repr

/-- `RecordReader` in `src/data/log_record.rs` (borrowed key/value slices are
modelled by keeping the whole buffer plus the decoded offsets, as the source
does). -/
structure RecordReader where
  data : List Nat
  key_value_start : Nat
  key_size : Nat
  value_size : Nat
  record_type : RecordType
  batch_state : BatchState
  deriving DecidableEq, Repr

/-- Outcome of decoding: success, a returned error, or a Rust panic
(`unwrap` on a too-short `last_chunk`, an out-of-range `bytes::Buf` read, or
the `unreachable!()` arm for an unknown batch tag). -/
inductive DecodeRes where
  | ok (rd : RecordReader)
  | err (e : BErr)
  | panic
  deriving DecidableEq, Repr

/-- `RecordType::try_from` (0 = `Deleted`, 1 = `Normal`, otherwise an error). -/
def recordTypeOfByte (b : Nat) : Option RecordType :=
  if b = 0 then some .deleted
  else if b = 1 then some .normal
  else none

/-- Second half of `RecordReader::decode_from_vec`: after the CRC check and
the skipped size field, read the key and value lengths and build the reader.
`start` is the running `index` value of the source (8 + 1 + 9 for batch tags
0/1, 8 + 1 + 1 for tag 2, plus 4 + 4 added here). -/
def parseLens (rt : RecordType) (bs : BatchState) (start : Nat)
    (r : List Nat) (buf : List Nat) : DecodeRes :=
  if r.length < 4 then .panic
  else
    let klen := beToNat (r.take 4)
    let r2 := r.drop 4
    if r2.length < 4 then .panic
    else
      let vlen := beToNat (r2.take 4)
      .ok ⟨buf, start, klen, vlen, rt, bs⟩

/-- `RecordReader::decode_from_vec`.  Mirrors the source exactly: check the
trailing CRC-32 over everything before it (panicking via `last_chunk().unwrap()`
if the buffer has fewer than 4 bytes), skip the 8-byte size field, read the
type byte, the batch tag (with its 8-byte sequence for tags 0 and 1;
`unreachable!()` for any other tag), then the two 4-byte lengths.  Note that
this function never inspects the size prefix's value. -/
def decode_from_vec (buf : List Nat) : DecodeRes :=
  if buf.length < 4 then .panic
  else
    let checksum := beToNat (lastN 4 buf)
    let crc := get_crc_32 (buf.take (buf.length - 4))
    if checksum ≠ crc then .err .crcMismatch
    else
      if buf.length < 8 then .panic
      else
        match buf.drop 8 with
        | [] => .panic
        | tb :: r1 =>
          match recordTypeOfByte tb with
          | none => .err .wrongRecordType
          | some rt =>
            match r1 with
            | [] => .panic
            | bb :: r2 =>
              if bb = 0 then
                if r2.length < 8 then .panic
                else parseLens rt (.enable (beToNat (r2.take 8))) (8 + 1 + 9 + 4 + 4) (r2.drop 8) buf
              else if bb = 1 then
                if r2.length < 8 then .panic
                else parseLens rt (.finish (beToNat (r2.take 8))) (8 + 1 + 9 + 4 + 4) (r2.drop 8) buf
              else if bb = 2 then
                parseLens rt .disable (8 + 1 + 1 + 4 + 4) r2 buf
              else .panic

/-- `RecordReader::key`: `data[start .. start + key_size]`. -/
def RecordReader.key (rd : RecordReader) : List Nat :=
  (rd.data.drop rd.key_value_start).take rd.key_size

/-- `RecordReader::value`: `data[start + key_size .. start + key_size + value_size]`. -/
def RecordReader.value (rd : RecordReader) : List Nat :=
  (rd.data.drop (rd.key_value_start + rd.key_size)).take rd.value_size

/-- `RecordReader::size`: the length of the whole decoded buffer. -/
def RecordReader.size (rd : RecordReader) : Nat :=
  rd.data.length

/-- `RecordReader::to_record`. -/
def RecordReader.to_record (rd : RecordReader) : Record :=
  ⟨rd.record_type, rd.key, rd.value, rd.batch_state⟩

/-- The `IO::read` of `SystemFile` (`read_at`): copy the available bytes of
the file at `offset` into a zero-initialised buffer of length `n`; bytes past
the end of the file are left zero (the source ignores the returned byte
count). -/
def readAt (file : List Nat) (offset n : Nat) : List Nat :=
  let chunk := (file.drop offset).take n
  chunk ++ List.replicate (n - chunk.length) 0

/-- `RecordReader::decode`: read 8 bytes at `offset` as the big-endian total
length, reject zero, then read that many bytes and run `decode_from_vec`. -/
def RecordReader.decode (file : List Nat) (offset : Nat) : DecodeRes :=
  let size := beToNat (readAt file offset 8)
  if size = 0 then .err .readSizeZero
  else decode_from_vec (readAt file offset size)

/-- `check_key_valid` in `src/key.rs`: reject the empty key. -/
def check_key_valid (key : Key) : Except BErr Unit :=
  if key = [] then .error .keyInvalid else .ok ()

/-- Lexicographic byte order on keys (the ordering of
`crossbeam_skiplist::SkipMap<Vec<u8>, _>`). -/
def keyLtb : List Nat → List Nat → Bool
  | [], [] => false
  | [], _ :: _ => true
  | _ :: _, [] => false
  | a :: as, b :: bs => if a < b then true else if b < a then false else keyLtb as bs

/-- One index shard: the `SkipMap<Key, RecordPosition>` of
`src/index/skip_list.rs`, modelled as an association list kept sorted in
ascending key order (the map's iteration order). -/
abbrev IndexMap := List (Key × RecordPosition)

/-- Sorted insertion into a shard (the `SkipMap::insert` position). -/
def imInsert (k : Key) (p : RecordPosition) : IndexMap → IndexMap
  | [] => [(k, p)]
  | (k', p') :: rest =>
    if keyLtb k k' then (k, p) :: (k', p') :: rest
    else (k', p') :: imInsert k p rest

/-- `SkipList::get`. -/
def imGet (m : IndexMap) (k : Key) : Option RecordPosition :=
  (m.find? (fun e => e.1 = k)).map Prod.snd

/-- `SkipList::exits` (sic). -/
def imExists (m : IndexMap) (k : Key) : Bool :=
  (imGet m k).isSome

/-- `SkipList::put`: remove any existing entry (returning it), then insert. -/
def imPut (m : IndexMap) (k : Key) (p : RecordPosition) :
    Option RecordPosition × IndexMap :=
  (imGet m k, imInsert k p (m.filter (fun e => e.1 ≠ k)))

/-- `SkipList::delete`: remove and return the entry, erroring when absent. -/
def imDelete (m : IndexMap) (k : Key) : Except BErr (RecordPosition × IndexMap) :=
  match imGet m k with
  | some p => .ok (p, m.filter (fun e => e.1 ≠ k))
  | none => .error .indexKeyNotFound

/-- A `DataFile` (`src/data/datafile.rs`): numeric id, monotone write offset,
and the bytes written so far (the backing `SystemFile`). -/
structure DFile where
  id : Nat
  write_offset : Nat
  content : List Nat
  deriving DecidableEq, Repr

/-- `DataFile::new`: fresh file with `write_offset = 0`. -/
def DFile.new (id : Nat) : DFile := ⟨id, 0, []⟩

/-- `DataFile::write_record`: encode, write at the current offset, advance the
offset by the byte count written (`io.write` returns the buffer length), and
return that count. -/
def DFile.write_record (f : DFile) (r : Record) : Nat × DFile :=
  let bytes := r.encode
  (bytes.length, { f with write_offset := f.write_offset + bytes.length, content := f.content ++ bytes })

/-- The `Bitcask` engine state (`src/storage.rs`): options, index shards,
active file, archived files (the `HashMap<u32, DataFile>`, modelled as an
association list), and the atomic counters the claims mention. -/
structure Engine where
  max_file_size : Nat
  write_sync : Bool
  indexs : List IndexMap
  active_file : DFile
  old_files : List (Nat × DFile)
  batch_seq : Nat
  bytes_written : Nat
  reclaimable : Nat
  deriving DecidableEq, Repr

/-- The engine state right after `Bitcask::open` on an empty directory:
`index_num` empty shards, active file id 0, `batch_seq = 1`. -/
def Engine.fresh (index_num max_file_size : Nat) (write_sync : Bool) : Engine :=
  ⟨max_file_size, write_sync, List.replicate index_num [], DFile.new 0, [], 1, 0, 0⟩

/-- `Bitcask::get_index`: the shard for a key is `indexs[key[0] % index_num]`
(keys are validated non-empty before every use; `headD` only defaults the
unreachable empty case). -/
def Engine.shardIdx (e : Engine) (key : Key) : Nat :=
  key.headD 0 % e.indexs.length

/-- Read a shard. -/
def Engine.shard (e : Engine) (key : Key) : IndexMap :=
  e.indexs.getD (e.shardIdx key) []

/-- Replace a shard. -/
def Engine.setShard (e : Engine) (key : Key) (m : IndexMap) : Engine :=
  { e with indexs := e.indexs.set (e.shardIdx key) m }

/-- `Bitcask::append_record`: under the active-file write lock, rotate when
`write_offset + encoded_len > max_file_size` (sync, start file `id + 1`, move
the old file into the archived map under its id), then write the record and
return `(active_id, old_offset, bytes_written)`. -/
def Engine.append_record (e : Engine) (r : Record) : RecordPosition × Engine :=
  let record_size := r.get_encode_len
  let e :=
    if e.active_file.write_offset + record_size > e.max_file_size then
      { e with
          active_file := DFile.new (e.active_file.id + 1),
          old_files := (e.active_file.id, e.active_file) :: e.old_files }
    else e
  let write_offset := e.active_file.write_offset
  let (write_size, f') := e.active_file.write_record r
  let e := { e with
      active_file := f',
      bytes_written := e.bytes_written + write_size }
  (⟨e.active_file.id, write_offset, write_size⟩, e)

/-- `Bitcask::delete`: validate the key; if the key has no index entry return
`Ok` without touching anything; otherwise append a tombstone, remove the index
entry and charge its size to `reclaimable`. -/
def Engine.delete (e : Engine) (key : Key) : Except BErr Unit × Engine :=
  match check_key_valid key with
  | .error er => (.error er, e)
  | .ok _ =>
    if ¬ imExists (e.shard key) key then (.ok (), e)
    else
      let record := Record.deleted key
      let (_, e1) := e.append_record record
      match imDelete (e1.shard key) key with
      | .error er => (.error er, e1)
      | .ok (pre_pos, m') =>
        let e2 := e1.setShard key m'
        (.ok (), { e2 with reclaimable := e2.reclaimable + pre_pos.size })

/-- `Bitcask::get`: validate the key, look it up, read the record at the
indexed position (the engine state carries every file's bytes), and reject
tombstones.  Returns the value bytes. -/
def Engine.fileContent (e : Engine) (file_id : Nat) : List Nat :=
  if e.active_file.id = file_id then e.active_file.content
  else match e.old_files.find? (fun p => p.1 = file_id) with
       | some (_, f) => f.content
       | none => []

def Engine.get (e : Engine) (key : Key) : Except BErr (List Nat) :=
  match check_key_valid key with
  | .error er => .error er
  | .ok _ =>
    match imGet (e.shard key) key with
    | none => .error .getKeyNotFound
    | some pos =>
      match RecordReader.decode (e.fileContent pos.file_id) pos.offset with
      | .ok rd =>
        match rd.record_type with
        | .deleted => .error .getKeyDeleted
        | .normal => .ok rd.value
      | _ => .error .readSizeZero

/-- One scanned entry of a data file: the offset the record starts at, its
on-disk size (`reader.size()`), and the decoded record. -/
abbrev ScanItem := Nat × Nat × Record

/-- The sequential-scan loop shared by `update_index_from_datafile` and
`Bitcask::merge` (`loop { read_record(offset) ... offset += record_len }`):
decode records at increasing offsets until a read fails (`Err(_) => break`).
A decode panic aborts the program, modelled as `none`.  `fuel` bounds the
recursion; every successful decode consumes at least one byte (`decode`
rejects a zero size), so `file.length + 2` steps always suffice. -/
def scanItemsAux (file : List Nat) : Nat → Nat → Option (List ScanItem)
  | _, 0 => none
  | offset, fuel + 1 =>
    match RecordReader.decode file offset with
    | .panic => none
    | .err _ => some []
    | .ok rd =>
      match scanItemsAux file (offset + rd.size) fuel with
      | none => none
      | some rest => some ((offset, rd.size, rd.to_record) :: rest)

/-- All records of a data file in scan order. -/
def scanItems (file : List Nat) : Option (List ScanItem) :=
  scanItemsAux file 0 (file.length + 2)

/-- The index/reclaimable part of the engine state threaded through recovery. -/
structure RState where
  indexs : List IndexMap
  batch_map : List (Nat × List Record)
  seq : Nat
  reclaimable : Nat
  deriving DecidableEq, Repr

/-- Outcome of one replay step: success, a propagated error (`?` in the
source), or a panic (`.expect` on a missing batch entry). -/
inductive RRes where
  | ok (st : RState)
  | err (e : BErr)
  | panic
  deriving DecidableEq, Repr

/-- Shard selection during recovery (same `key[0] % index_num` as the
engine). -/
def rShardIdx (st : RState) (key : Key) : Nat :=
  key.headD 0 % st.indexs.length

/-- `Bitcask::update_index`: `Deleted` does a shard `delete` (erroring when
the key is absent), `Normal` does a shard `put`; any returned previous
position's size is charged to `reclaimable`. -/
def rUpdateIndex (st : RState) (record : Record) (pos : RecordPosition) : RRes :=
  let i := rShardIdx st record.key
  let m := st.indexs.getD i []
  match record.record_type with
  | .deleted =>
    match imDelete m record.key with
    | .error e => .err e
    | .ok (p, m') =>
      .ok { st with indexs := st.indexs.set i m', reclaimable := st.reclaimable + p.size }
  | .normal =>
    let (prev, m') := imPut m record.key pos
    let st := { st with indexs := st.indexs.set i m' }
    match prev with
    | some p => .ok { st with reclaimable := st.reclaimable + p.size }
    | none => .ok st

/-- Apply a drained batch list, every record at the same position `pos`
(exactly what the source's `try_for_each(|record| self.update_index(&record, pos))`
does: `pos` is the position of the `Finish` sentinel being scanned). -/
def rApplyBatch (pos : RecordPosition) : List Record → RState → RRes
  | [], st => .ok st
  | record :: rest, st =>
    match rUpdateIndex st record pos with
    | .ok st' => rApplyBatch pos rest st'
    | r => r

/-- Remove the buffered list for `seq` from the batch map, if present. -/
def bmRemove (seq : Nat) (m : List (Nat × List Record)) :
    Option (List Record × List (Nat × List Record)) :=
  match m.find? (fun e => e.1 = seq) with
  | some (_, recs) => some (recs, m.filter (fun e => e.1 ≠ seq))
  | none => none

/-- Append a record to the buffered list for `seq`
(`batch_map.entry(seq).or_default().push(record)`). -/
def bmPush (seq : Nat) (record : Record) (m : List (Nat × List Record)) :
    List (Nat × List Record) :=
  match m.find? (fun e => e.1 = seq) with
  | some (_, recs) =>
    m.map (fun e => if e.1 = seq then (seq, recs ++ [record]) else e)
  | none => m ++ [(seq, [record])]

/-- The body of the `update_index_from_datafile` loop on one scanned item:
`Enable(seq)` buffers the record; `Finish(seq)` drains the buffer (panicking
via `.expect` when nothing is buffered) and applies each buffered record at
the position of the sentinel itself, then advances `current_seq`;
`Disable` applies the record immediately. -/
def replayStep (file_id : Nat) (st : RState) : ScanItem → RRes
  | (offset, record_len, record) =>
    let pos := RecordPosition.new file_id offset record_len
    match record.batch_state with
    | .enable seq => .ok { st with batch_map := bmPush seq record st.batch_map }
    | .finish seq =>
      match bmRemove seq st.batch_map with
      | none => .panic
      | some (recs, m') =>
        match rApplyBatch pos recs { st with batch_map := m' } with
        | .ok st' => .ok { st' with seq := if st'.seq < seq then seq else st'.seq }
        | r => r
    | .disable => rUpdateIndex st record pos

/-- Fold the replay step over the scanned items. -/
def replayItems (file_id : Nat) : List ScanItem → RState → RRes
  | [], st => .ok st
  | item :: rest, st =>
    match replayStep file_id st item with
    | .ok st' => replayItems file_id rest st'
    | r => r

/-- `Bitcask::update_index_from_datafile` for one file: scan it from offset 0
with a fresh (per-file) batch map, starting from the engine's current
`batch_seq`.  Returns the final recovery state; the source also returns the
end offset (recorded as the active file's write offset). -/
def update_index_from_datafile (file_id : Nat) (file : List Nat)
    (indexs : List IndexMap) (batch_seq reclaimable : Nat) : RRes :=
  match scanItems file with
  | none => .panic
  | some items => replayItems file_id items ⟨indexs, [], batch_seq, reclaimable⟩

/-- `BatchWrite` (`src/batch_write.rs`): the pending map from key to record
(a `HashMap`, modelled as an association list in its iteration order) and the
batch options. -/
structure BatchWrite where
  pending : List (Key × Record)
  max_batch_size : Nat
  write_sync : Bool
  deriving DecidableEq, Repr

/-- The index-application loop at the end of `BatchWrite::commit`
(`try_for_each`): `Deleted` does a shard `delete` (stopping at the first
error), `Normal` a shard `put`; prior positions are charged to
`reclaimable`.  Returns the engine after the applied prefix together with the
first error, if any. -/
def applyBatchIndex : List (Record × RecordPosition) → Engine → Engine × Option BErr
  | [], e => (e, none)
  | (record, pos) :: rest, e =>
    match record.record_type with
    | .deleted =>
      match imDelete (e.shard record.key) record.key with
      | .error er => (e, some er)
      | .ok (p, m') =>
        let e := e.setShard record.key m'
        applyBatchIndex rest { e with reclaimable := e.reclaimable + p.size }
    | .normal =>
      let (prev, m') := imPut (e.shard record.key) record.key pos
      let e := e.setShard record.key m'
      match prev with
      | some p => applyBatchIndex rest { e with reclaimable := e.reclaimable + p.size }
      | none => applyBatchIndex rest e

/-- Append every pending record tagged `Enable(seq)`, remembering each
`(record, position)` pair. -/
def appendPending (seq : Nat) : List (Key × Record) → Engine →
    List (Record × RecordPosition) × Engine
  | [], e => ([], e)
  | (_, record) :: rest, e =>
    let record := { record with batch_state := .enable seq }
    let (pos, e) := e.append_record record
    let (acc, e) := appendPending seq rest e
    ((record, pos) :: acc, e)

/-- `BatchWrite::commit`.  The pending map is moved out (`mem::take`) before
any check; an empty batch returns at once; an oversized batch fails with
`BatchTooLarge`; otherwise the global `batch_seq` is fetched-and-incremented,
every pending record is appended tagged `Enable(seq)`, the `Finish(seq)`
sentinel is appended, and the index updates are applied.  Besides the
source's `Result<()>` the model also returns the assigned sequence (`none`
when no batch was written) so that theorems can speak about it; the source
computes the same value and drops it. -/
def BatchWrite.commit (b : BatchWrite) (e : Engine) :
    (Except BErr Unit × Option Nat) × BatchWrite × Engine :=
  let pending := b.pending
  let b := { b with pending := [] }
  if pending = [] then ((.ok (), none), b, e)
  else if pending.length > b.max_batch_size then ((.error .batchTooLarge, none), b, e)
  else
    let seq := e.batch_seq
    let e := { e with batch_seq := e.batch_seq + 1 }
    let (index, e) := appendPending seq pending e
    let (_, e) := e.append_record (Record.batch_finished seq)
    match applyBatchIndex index e with
    | (e, none) => ((.ok (), some seq), b, e)
    | (e, some er) => ((.error er, some seq), b, e)

/-- `MergeEngine` (`src/merge.rs`): active file and archived files of the
side directory. -/
structure MEngine where
  max_file_size : Nat
  active_file : DFile
  old_files : List (Nat × DFile)
  deriving DecidableEq, Repr

/-- `MergeEngine::append_record`: same rotation-and-append logic as the main
engine's. -/
def MEngine.append_record (m : MEngine) (r : Record) : RecordPosition × MEngine :=
  let encode_data_len := r.get_encode_len
  let m :=
    if m.active_file.write_offset + encode_data_len > m.max_file_size then
      { m with
          active_file := DFile.new (m.active_file.id + 1),
          old_files := (m.active_file.id, m.active_file) :: m.old_files }
    else m
  let prev_offset := m.active_file.write_offset
  let (write_size, f') := m.active_file.write_record r
  let m := { m with active_file := f' }
  (⟨m.active_file.id, prev_offset, write_size⟩, m)

/-- `Bitcask::get_merge_files` snapshots the files to merge: it rotates the
active file (its id joins the archived map) and then enumerates the archived
`HashMap` by `keys()`.  A `std::collections::HashMap` yields its keys in an
unspecified order, so the model only constrains the enumeration to be some
permutation of the snapshot ids: the archived ids plus the previous active
id. -/
def MergeEnumOk (old_ids : List Nat) (active_id : Nat) (order : List Nat) : Prop :=
  order.Perm (active_id :: old_ids)

/-- Accumulator of the merge scan loop (`Bitcask::merge`, the `for file in
merge_files` loop): the merge-local engine, the hint-file records written so
far, `max_file_id`, and the order in which files were visited. -/
structure MergeAcc where
  engine : MEngine
  hint : List Record
  max_file_id : Nat
  visited : List Nat
  deriving DecidableEq, Repr

/-- The per-record body of the merge scan: `Finish` sentinels are skipped
outright; any other record is re-appended to the merge engine (with its batch
state cleared) iff the main index maps its key to exactly this file id and
offset, in which case a hint record `Normal(key, merge_position.encode())` is
written; `max_file_id` is updated for every non-sentinel record. -/
def mergeRecordStep (indexs : List IndexMap) (file_id : Nat) (acc : MergeAcc) :
    ScanItem → MergeAcc
  | (offset, _, record) =>
    match record.batch_state with
    | .finish _ => acc
    | _ =>
      let m := indexs.getD (record.key.headD 0 % indexs.length) []
      let acc :=
        match imGet m record.key with
        | some pos =>
          if pos.file_id = file_id ∧ pos.offset = offset then
            let record := { record with batch_state := .disable }
            let (merge_pos, eng) := acc.engine.append_record record
            { acc with
                engine := eng,
                hint := acc.hint ++ [Record.normal record.key merge_pos.encode] }
          else acc
        | none => acc
      { acc with max_file_id := max acc.max_file_id file_id }

/-- Scan one snapshot file during merge. -/
def mergeFileStep (indexs : List IndexMap) (acc : MergeAcc)
    (file_id : Nat) (file : List Nat) : Option MergeAcc :=
  match scanItems file with
  | none => none
  | some items =>
    some { items.foldl (mergeRecordStep indexs file_id) acc with
             visited := acc.visited ++ [file_id] }

/-- The whole merge scan over the snapshot files in the order the archived
map enumerated them (`merge_files`), starting from a fresh merge engine. -/
def mergeRun (indexs : List IndexMap) (max_file_size : Nat)
    (files : List (Nat × List Nat)) : Option MergeAcc :=
  files.foldlM (fun acc f => mergeFileStep indexs acc f.1 f.2)
    ⟨⟨max_file_size, DFile.new 0, []⟩, [], 0, []⟩

/-- `TxnSearchType` in `src/transaction.rs`. -/
inductive TxnSearchType where
  | read
  | write
  deriving DecidableEq, Repr

/-- A `Transaction`'s snapshot data (`src/transaction.rs`): its timestamp and
the set of transaction ids that were active at `begin`. -/
structure Txn where
  ts : Nat
  active_txn_ids : List Nat
  deriving DecidableEq, Repr

/-- `Transaction::is_visible`: false when `ts` is in the active set,
otherwise `ts <= self.ts`. -/
def Txn.is_visible (txn : Txn) (ts : Nat) : Bool :=
  if txn.active_txn_ids.contains ts then false
  else ts ≤ txn.ts

/-- `starts_with` on byte strings. -/
def leadsWith : List Nat → List Nat → Bool
  | _, [] => true
  | [], _ :: _ => false
  | a :: as, b :: bs => a = b && leadsWith as bs

/-- The body of `SkipList::txn_prefix_search` on the reverse-ordered entry
list: the first entry whose key is the searched prefix followed by exactly 8
bytes decodes those bytes as the big-endian version timestamp; invisible
versions are skipped in `Read` mode and abort with `TxnConflict` in `Write`
mode.  (The source computes `key.len() - key_prefix.len() == 8` with a
wrapping `usize` subtraction, which for any realistic lengths holds exactly
when `key.len() = key_prefix.len() + 8`.) -/
def txnSearchRev (kp : Key) (t : TxnSearchType) (txn : Txn) :
    List (Key × RecordPosition) → Except BErr (RecordPosition × Nat)
  | [] => .error .txnSearchNotFound
  | (key, pos) :: rest =>
    if key.length = kp.length + 8 ∧ leadsWith key kp then
      let ts := beToNat (lastN 8 key)
      if ¬ txn.is_visible ts then
        match t with
        | .read => txnSearchRev kp t txn rest
        | .write => .error .txnConflict
      else .ok (pos, ts)
    else txnSearchRev kp t txn rest

/-- `SkipList::txn_prefix_search`: iterate the map in reverse key order. -/
def txn_prefix_search (m : IndexMap) (kp : Key) (t : TxnSearchType) (txn : Txn) :
    Except BErr (RecordPosition × Nat) :=
  txnSearchRev kp t txn m.reverse

/-- `TxnManager`'s mutable pieces touched by `Transaction::write`
(`src/transaction/manager.rs`): the pending-cleanup queue and the
active-transaction write lists. -/
structure TxnMgr where
  pending_clean : List (Nat × Key)
  active_txn : List (Nat × List Key)
  deriving DecidableEq, Repr

/-- `TxnManager::mark_to_clean`. -/
def TxnMgr.mark_to_clean (mgr : TxnMgr) (version : Nat) (key : Key) : TxnMgr :=
  { mgr with pending_clean := mgr.pending_clean ++ [(version, key)] }

/-- `TxnManager::update_txn`: push `key` onto the write list of `version`. -/
def TxnMgr.update_txn (mgr : TxnMgr) (version : Nat) (key : Key) : TxnMgr :=
  if (mgr.active_txn.find? (fun e => e.1 = version)).isSome then
    { mgr with active_txn :=
        mgr.active_txn.map (fun e => if e.1 = version then (e.1, e.2 ++ [key]) else e) }
  else
    { mgr with active_txn := mgr.active_txn ++ [(version, [key])] }

/-- `Transaction::write`: prefix-search in `Write` mode; on success, mark the
found version for cleanup when it is not our own, record the key in the write
list, and append a record keyed `user_key || be64(self.ts)` with the
operation's record type, updating the index (`Bitcask::txn_write`).  On a
search error — including `txn search: key not found!` when the key has no
versioned record at all — the error is returned as-is. -/
def Transaction.write (txn : Txn) (mgr : TxnMgr) (e : Engine) (record : Record) :
    Except BErr Unit × TxnMgr × Engine :=
  let key := record.key
  let value := record.value
  match txn_prefix_search (e.shard key) key .write txn with
  | .error er => (.error er, mgr, e)
  | .ok (_, ts) =>
    let mgr := if ts ≠ txn.ts then mgr.mark_to_clean ts key else mgr
    let mgr := mgr.update_txn txn.ts key
    let key_slice := key ++ beBytes txn.ts 8
    let write_record : Record :=
      { Record.normal key_slice value with record_type := record.record_type }
    let (pos, e) := e.append_record write_record
    let (_, m') := imPut (e.shard write_record.key) write_record.key pos
    (.ok (), mgr, e.setShard write_record.key m')

/-- `Transaction::put`: validate the key, then `write(Record::normal(key, value))`. -/
def Transaction.put (txn : Txn) (mgr : TxnMgr) (e : Engine) (key value : Key) :
    Except BErr Unit × TxnMgr × Engine :=
  match check_key_valid key with
  | .error er => (.error er, mgr, e)
  | .ok _ => Transaction.write txn mgr e (Record.normal key value)

/-- Projection from a replay result to its restored `batch_seq`. -/
def RRes.seqOf : RRes → Option Nat
  | .ok st => some st.seq
  | _ => none

/-- Projection from a replay result to its rebuilt shards. -/
def RRes.stOf : RRes → Option RState
  | .ok st => some st
  | _ => none

/-- Successful decode? -/
def DecodeRes.isOk : DecodeRes → Bool
  | .ok _ => true
  | _ => false

/-- The record obtained by a successful `decode_from_vec` followed by
`to_record`. -/
def decodeRecordOf (buf : List Nat) : Option Record :=
  match decode_from_vec buf with
  | .ok rd => some rd.to_record
  | _ => none

/-- `Record::seq_wf`: the batch sequence fits in the Rust `u64` that stores
it (automatic for every record the source can build). -/
def Record.seq_wf (r : Record) : Prop :=
  match r.batch_state with
  | .enable q => q < 2 ^ 64
  | .finish q => q < 2 ^ 64
  | .disable => True

theorem beBytes_length (n k : Nat) : (beBytes n k).length = k := by
  induction k with
  | zero => rfl
  | succ k ih => simp [beBytes, ih]

theorem beBytes_foldl (k n a : Nat) :
    List.foldl (fun acc b => acc * 256 + b % 256) a (beBytes n k) =
      a * 2 ^ (8 * k) + n % 2 ^ (8 * k) := by
  induction k generalizing a with
  | zero => simp [beBytes, Nat.mod_one]
  | succ k ih =>
    have hx : (n / 2 ^ (8 * k)) % 256 % 256 = (n / 2 ^ (8 * k)) % 256 := by simp
    have harith : (n / 2 ^ (8 * k)) % 256 * 2 ^ (8 * k) + n % 2 ^ (8 * k)
        = n % 2 ^ (8 * (k + 1)) := by
      have h : (2 : Nat) ^ (8 * (k + 1)) = 2 ^ (8 * k) * 256 := by ring
      rw [h, Nat.mod_mul]; ring
    simp only [beBytes, List.foldl_cons, hx, ih]
    have hpow : (2 : Nat) ^ (8 * (k + 1)) = 2 ^ (8 * k) * 256 := by ring
    rw [Nat.add_mul, ← harith, hpow]; ring

theorem beToNat_beBytes {n k : Nat} (h : n < 2 ^ (8 * k)) :
    beToNat (beBytes n k) = n := by
  simp [beToNat, beBytes_foldl, Nat.mod_eq_of_lt h]

theorem crcStep_lt {s : Nat} (h : s < 2 ^ 32) : crcStep s < 2 ^ 32 := by
  have hp : crc32Poly < 2 ^ 32 := by norm_num [crc32Poly]
  have hd : s / 2 < 2 ^ 32 := lt_of_le_of_lt (Nat.div_le_self s 2) h
  unfold crcStep
  split
  · exact Nat.xor_lt_two_pow hd hp
  · exact hd

theorem crcByte_lt {s : Nat} (b : Nat) (h : s < 2 ^ 32) : crcByte s b < 2 ^ 32 := by
  have h0 : s ^^^ (b % 256) < 2 ^ 32 :=
    Nat.xor_lt_two_pow h (lt_trans (Nat.mod_lt _ (by norm_num)) (by norm_num))
  unfold crcByte
  exact crcStep_lt (crcStep_lt (crcStep_lt (crcStep_lt (crcStep_lt (crcStep_lt
    (crcStep_lt (crcStep_lt h0)))))))

theorem crc_foldl_lt (l : List Nat) {s : Nat} (h : s < 2 ^ 32) :
    l.foldl crcByte s < 2 ^ 32 := by
  induction l generalizing s with
  | nil => exact h
  | cons b t ih => exact ih (crcByte_lt b h)

theorem get_crc_32_lt (l : List Nat) : get_crc_32 l < 2 ^ 32 := by
  unfold get_crc_32
  exact Nat.xor_lt_two_pow (crc_foldl_lt l (by norm_num)) (by norm_num)

theorem lastN_append {l1 l2 : List Nat} {n : Nat} (h : l2.length = n) :
    lastN n (l1 ++ l2) = l2 := by
  have : (l1 ++ l2).length - n = l1.length := by
    simp [List.length_append, h]
  rw [lastN, this, List.drop_left]

theorem encode_length (r : Record) : r.encode.length = r.get_encode_len := by
  obtain ⟨rt, key, value, bs⟩ := r
  cases bs <;>
    simp [Record.encode, Record.encodeBody, Record.get_encode_len, batchTagBytes,
      beBytes_length] <;> omega

theorem get_encode_len_pos (r : Record) : 0 < r.get_encode_len := by
  obtain ⟨rt, key, value, bs⟩ := r
  cases bs <;> simp [Record.get_encode_len]

theorem find_filter_ne (m : IndexMap) (k : Key) :
    (m.filter (fun e => e.1 ≠ k)).find? (fun e => e.1 = k) = none := by
  induction m with
  | nil => rfl
  | cons hd t ih =>
    by_cases h : hd.1 = k
    · simp [List.filter_cons, h, ih]
    · simp [List.filter_cons, h, List.find?_cons, ih]

theorem imExists_filter_ne (m : IndexMap) (k : Key) :
    imExists (m.filter (fun e => e.1 ≠ k)) k = false := by
  simp [imExists, imGet, find_filter_ne]

theorem append_record_indexs (e : Engine) (r : Record) :
    (e.append_record r).2.indexs = e.indexs := by
  simp only [Engine.append_record, DFile.write_record]
  split <;> rfl

/-- C9: `Transaction::is_visible(ts)` returns true iff `ts ≤ self.ts` and
`ts` is not among the transaction ids that were active when the transaction
began. -/
theorem c9_is_visible_iff (txn : Txn) (ts : Nat) :
    txn.is_visible ts = true ↔ ts ≤ txn.ts ∧ ts ∉ txn.active_txn_ids := by
  unfold Txn.is_visible
  by_cases h : ts ∈ txn.active_txn_ids <;> simp [h]

/-- C10: `BatchWrite::commit` moves the pending map out before any check, so
a commit failing with `BatchTooLarge` leaves the pending map empty, and the
immediately retried commit returns `Ok` while appending nothing and touching
neither the index nor the engine. -/
theorem c10_failed_commit_discards_pending (b : BatchWrite) (e : Engine)
    (h : b.pending.length > b.max_batch_size) :
    b.commit e = ((.error .batchTooLarge, none), { b with pending := [] }, e) ∧
    BatchWrite.commit { b with pending := [] } e =
      ((.ok (), none), { b with pending := [] }, e) := by
  have hne : b.pending ≠ [] := by
    intro h0
    rw [h0] at h
    simp at h
  constructor
  · simp [BatchWrite.commit, hne, h]
  · simp [BatchWrite.commit]

theorem c10_failed_commit_discards_pending_witness :
    ((⟨[([107], Record.normal [107] [118])], 0, false⟩ : BatchWrite).commit
        (Engine.fresh 1 100 false) =
      ((.error .batchTooLarge, none), ⟨[], 0, false⟩, Engine.fresh 1 100 false)) ∧
    (BatchWrite.commit ⟨[], 0, false⟩ (Engine.fresh 1 100 false) =
      ((.ok (), none), ⟨[], 0, false⟩, Engine.fresh 1 100 false)) :=
  c10_failed_commit_discards_pending
    ⟨[([107], Record.normal [107] [118])], 0, false⟩ (Engine.fresh 1 100 false)
    (by decide)

theorem shardIdx_lt (e : Engine) (key : Key) (hs : e.indexs ≠ []) :
    e.shardIdx key < e.indexs.length :=
  Nat.mod_lt _ (List.length_pos.mpr hs)

theorem setShard_shard (e : Engine) (key : Key) (m : IndexMap) (hs : e.indexs ≠ []) :
    (e.setShard key m).shard key = m := by
  have hlt := shardIdx_lt e key hs
  simp [Engine.setShard, Engine.shard, Engine.shardIdx, List.length_set, List.getD,
    List.getElem?_set, Engine.shardIdx] at hlt ⊢
  simp [Nat.mod_lt _ (List.length_pos.mpr hs), hlt]

/-- `Bitcask::delete` on a key with no index entry returns `Ok` without
appending or touching anything. -/
theorem delete_no_entry (e : Engine) (key : Key) (hk : key ≠ [])
    (hex : imExists (e.shard key) key = false) :
    Engine.delete e key = (.ok (), e) := by
  have hkv : check_key_valid key = .ok () := by simp [check_key_valid, hk]
  simp only [Engine.delete, hkv, hex, Bool.false_eq_true, not_false_eq_true, if_true]

/-- C8: `Bitcask::delete` on a non-empty key with no index entry returns `Ok`
and changes nothing (no tombstone is appended), and `delete(k); delete(k)`
is observationally equivalent to `delete(k)`: the second call returns `Ok`
and leaves the state of the first call untouched. -/
theorem c8_delete_idempotent (e : Engine) (key : Key)
    (hk : key ≠ []) (hs : e.indexs ≠ []) :
    (imExists (e.shard key) key = false → Engine.delete e key = (.ok (), e)) ∧
    (Engine.delete (Engine.delete e key).2 key).1 = .ok () ∧
    (Engine.delete (Engine.delete e key).2 key).2 = (Engine.delete e key).2 := by
  have hkv : check_key_valid key = .ok () := by simp [check_key_valid, hk]
  by_cases hex : imExists (e.shard key) key
  · obtain ⟨p, hp⟩ : ∃ p, imGet (e.shard key) key = some p := by
      have := hex
      unfold imExists at this
      exact Option.isSome_iff_exists.mp this
    rcases hsplit : e.append_record (Record.deleted key) with ⟨pos, e1⟩
    have hidx : e1.indexs = e.indexs := by
      have := append_record_indexs e (Record.deleted key)
      rw [hsplit] at this
      exact this
    have hsh : e1.shard key = e.shard key := by
      simp [Engine.shard, Engine.shardIdx, hidx]
    have hdel : Engine.delete e key =
        (.ok (), { e1.setShard key ((e.shard key).filter (fun x => x.1 ≠ key)) with
                     reclaimable :=
                       (e1.setShard key ((e.shard key).filter (fun x => x.1 ≠ key))).reclaimable
                         + p.size }) := by
      simp only [Engine.delete, hkv, hex, not_true_eq_false, if_false, hsplit, hsh,
        imDelete, hp]
    have hs1 : e1.indexs ≠ [] := by rw [hidx]; exact hs
    have hex2 : imExists ((Engine.delete e key).2.shard key) key = false := by
      rw [hdel]
      have heq : ({ e1.setShard key ((e.shard key).filter (fun x => x.1 ≠ key)) with
                  reclaimable :=
                    (e1.setShard key ((e.shard key).filter (fun x => x.1 ≠ key))).reclaimable
                      + p.size } : Engine).shard key =
             (e.shard key).filter (fun x => x.1 ≠ key) := by
        have hss := setShard_shard e1 key ((e.shard key).filter (fun x => x.1 ≠ key)) hs1
        simpa [Engine.shard, Engine.shardIdx, Engine.setShard] using hss
      rw [heq]
      exact imExists_filter_ne _ _
    have hdel2 := delete_no_entry (Engine.delete e key).2 key hk hex2
    refine ⟨?_, by rw [hdel2], by rw [hdel2]⟩
    intro h
    rw [hex] at h
    cases h
  · have hex' : imExists (e.shard key) key = false := by
      cases h : imExists (e.shard key) key
      · rfl
      · exact absurd h hex
    have hdel := delete_no_entry e key hk hex'
    refine ⟨fun _ => hdel, ?_, ?_⟩ <;> rw [hdel] <;> rw [hdel]

theorem c8_delete_idempotent_witness :
    (imExists ((Engine.fresh 2 100 false).shard [107]) [107] = false →
      Engine.delete (Engine.fresh 2 100 false) [107] = (.ok (), Engine.fresh 2 100 false)) ∧
    (Engine.delete (Engine.delete (Engine.fresh 2 100 false) [107]).2 [107]).1 = .ok () ∧
    (Engine.delete (Engine.delete (Engine.fresh 2 100 false) [107]).2 [107]).2 =
      (Engine.delete (Engine.fresh 2 100 false) [107]).2 :=
  c8_delete_idempotent (Engine.fresh 2 100 false) [107] (by decide) (by decide)

theorem append_record_rotate (e : Engine) (r : Record)
    (h : e.active_file.write_offset + r.get_encode_len > e.max_file_size) :
    (e.append_record r).2.active_file.id = e.active_file.id + 1 ∧
    (e.append_record r).2.old_files = (e.active_file.id, e.active_file) :: e.old_files ∧
    (e.append_record r).1 = ⟨e.active_file.id + 1, 0, r.get_encode_len⟩ ∧
    (e.append_record r).2.active_file.write_offset = r.get_encode_len ∧
    (e.append_record r).2.max_file_size = e.max_file_size := by
  simp [Engine.append_record, DFile.write_record, DFile.new, if_pos h, encode_length]

theorem append_record_no_rotate (e : Engine) (r : Record)
    (h : ¬ e.active_file.write_offset + r.get_encode_len > e.max_file_size) :
    (e.append_record r).2.active_file.id = e.active_file.id ∧
    (e.append_record r).2.old_files = e.old_files ∧
    (e.append_record r).1 =
      ⟨e.active_file.id, e.active_file.write_offset, r.get_encode_len⟩ ∧
    (e.append_record r).2.active_file.write_offset =
      e.active_file.write_offset + r.get_encode_len ∧
    (e.append_record r).2.max_file_size = e.max_file_size := by
  simp [Engine.append_record, DFile.write_record, if_neg h, encode_length]

/-- C6: `Bitcask::append_record` rotates exactly on overflow — it rotates iff
`write_offset + encoded_len > max_file_size`, rotation starts a new active
file with id one higher and archives the old file under its id — and a record
whose encoded length equals `max_file_size` fits an empty active file without
rotation while the following append rotates. -/
theorem c6_append_rotates_on_overflow (e : Engine) (r r2 : Record) :
    ((e.active_file.write_offset + r.get_encode_len > e.max_file_size →
        (e.append_record r).2.active_file.id = e.active_file.id + 1 ∧
        (e.append_record r).2.old_files = (e.active_file.id, e.active_file) :: e.old_files ∧
        (e.append_record r).1 = ⟨e.active_file.id + 1, 0, r.get_encode_len⟩) ∧
      (¬ e.active_file.write_offset + r.get_encode_len > e.max_file_size →
        (e.append_record r).2.active_file.id = e.active_file.id ∧
        (e.append_record r).2.old_files = e.old_files ∧
        (e.append_record r).1 =
          ⟨e.active_file.id, e.active_file.write_offset, r.get_encode_len⟩)) ∧
    (e.active_file.write_offset = 0 → r.get_encode_len = e.max_file_size →
      (e.append_record r).2.old_files = e.old_files ∧
      (e.append_record r).2.active_file.id = e.active_file.id ∧
      (e.append_record r).2.active_file.write_offset = e.max_file_size ∧
      ((e.append_record r).2.append_record r2).2.active_file.id = e.active_file.id + 1 ∧
      ((e.append_record r).2.append_record r2).2.old_files =
        (e.active_file.id, (e.append_record r).2.active_file) :: e.old_files) := by
  refine ⟨⟨?_, ?_⟩, ?_⟩
  · intro h
    obtain ⟨h1, h2, h3, -⟩ := append_record_rotate e r h
    exact ⟨h1, h2, h3⟩
  · intro h
    obtain ⟨h1, h2, h3, -⟩ := append_record_no_rotate e r h
    exact ⟨h1, h2, h3⟩
  · intro h0 hlen
    have hc1 : ¬ e.active_file.write_offset + r.get_encode_len > e.max_file_size := by
      omega
    obtain ⟨hid, hof, -, hwo, hmx⟩ := append_record_no_rotate e r hc1
    have hwo' : (e.append_record r).2.active_file.write_offset = e.max_file_size := by
      omega
    have hc2 : (e.append_record r).2.active_file.write_offset + r2.get_encode_len >
        (e.append_record r).2.max_file_size := by
      have := get_encode_len_pos r2
      omega
    obtain ⟨hid2, hof2, -, -, -⟩ := append_record_rotate (e.append_record r).2 r2 hc2
    refine ⟨hof, hid, hwo', ?_, ?_⟩
    · rw [hid2, hid]
    · rw [hof2, hid, hof]

theorem c6_append_rotates_on_overflow_witness :
    ((Engine.fresh 1 30 false).append_record
        ⟨.normal, [1, 2, 3], [4, 5, 6, 7, 8], .disable⟩).2.old_files = [] ∧
    ((Engine.fresh 1 30 false).append_record
        ⟨.normal, [1, 2, 3], [4, 5, 6, 7, 8], .disable⟩).2.active_file.id = 0 ∧
    ((Engine.fresh 1 30 false).append_record
        ⟨.normal, [1, 2, 3], [4, 5, 6, 7, 8], .disable⟩).2.active_file.write_offset = 30 ∧
    (((Engine.fresh 1 30 false).append_record
        ⟨.normal, [1, 2, 3], [4, 5, 6, 7, 8], .disable⟩).2.append_record
          (Record.normal [9] [])).2.active_file.id = 0 + 1 ∧
    (((Engine.fresh 1 30 false).append_record
        ⟨.normal, [1, 2, 3], [4, 5, 6, 7, 8], .disable⟩).2.append_record
          (Record.normal [9] [])).2.old_files =
      (0, ((Engine.fresh 1 30 false).append_record
        ⟨.normal, [1, 2, 3], [4, 5, 6, 7, 8], .disable⟩).2.active_file) :: [] :=
  (c6_append_rotates_on_overflow (Engine.fresh 1 30 false)
      ⟨.normal, [1, 2, 3], [4, 5, 6, 7, 8], .disable⟩ (Record.normal [9] [])).2
    rfl (by decide)

/-- C2 (refuting; the source, not the claim, is at fault): a transactional
put of a non-empty key that has no versioned record on disk does not return
OK — `Transaction::write` propagates the prefix-search failure
`txn search: key not found!` verbatim, for every transaction, so the spec's
rollback scenario already fails at its first step `T.put("k","v")`. -/
theorem c2_txn_put_fresh_key_fails (txn : Txn) (mgr : TxnMgr) :
    Transaction.put txn mgr (Engine.fresh 8 1000000 false) [107] [118] =
      (.error .txnSearchNotFound, mgr, Engine.fresh 8 1000000 false) := rfl

/-- C1 (refuting; the source, not the claim, is at fault): replaying one data
file that holds the batch record `Enable(1)` for key "k" (byte 107) with
value "v" (byte 118) followed by its `Finish(1)` sentinel rebuilds an index
that maps "k" to the position of the *sentinel* — file 0, offset 32 (the
sentinel starts right after the 32-byte first record) and the sentinel's size
— instead of the record's own position (offset 0).  Reading through that
index returns the sentinel's empty value instead of "v".  The claim's second
half does hold: with the sentinel absent the batch is not reflected in the
index at all. -/
theorem c1_replay_indexes_sentinel_position :
    update_index_from_datafile 0
        ((⟨.normal, [107], [118], .enable 1⟩ : Record).encode ++
          (Record.batch_finished 1).encode) [[]] 1 0 =
      .ok ⟨[[([107], ⟨0, 32, 32⟩)]], [], 1, 0⟩ ∧
    (⟨.normal, [107], [118], .enable 1⟩ : Record).encode.length = 32 ∧
    Engine.get
      ⟨1000000, false, [[([107], ⟨0, 32, 32⟩)]],
        ⟨0, 64, (⟨.normal, [107], [118], .enable 1⟩ : Record).encode ++
          (Record.batch_finished 1).encode⟩, [], 1, 0, 0⟩ [107] = .ok [] ∧
    update_index_from_datafile 0 (⟨.normal, [107], [118], .enable 1⟩ : Record).encode
        [[]] 1 0 = .ok ⟨[[]], [(1, [⟨.normal, [107], [118], .enable 1⟩])], 1, 0⟩ :=
  ⟨rfl, rfl, rfl, rfl⟩

/-- C3 (counterexample): batch sequences are not strictly monotonic across a
close/reopen.  A fresh engine assigns sequence 1 to its first commit; the
recovery replay of the resulting log restores `batch_seq` to 1 (the largest
`Finish` sequence seen), and the first commit after the reopen is again
assigned sequence 1 — equal to, not strictly greater than, the sequence
already present in the log. -/
theorem c3_cex_reopen_reuses_sequence :
    ((⟨[([107], Record.normal [107] [118])], 100, false⟩ : BatchWrite).commit
        (Engine.fresh 1 1000000 false)).1.2 = some 1 ∧
    RRes.seqOf
      (update_index_from_datafile 0
        ((⟨[([107], Record.normal [107] [118])], 100, false⟩ : BatchWrite).commit
          (Engine.fresh 1 1000000 false)).2.2.active_file.content [[]] 1 0) = some 1 ∧
    ((⟨[([109], Record.normal [109] [120])], 100, false⟩ : BatchWrite).commit
        { Engine.fresh 1 1000000 false with
            batch_seq :=
              (RRes.seqOf
                (update_index_from_datafile 0
                  ((⟨[([107], Record.normal [107] [118])], 100, false⟩ : BatchWrite).commit
                    (Engine.fresh 1 1000000 false)).2.2.active_file.content [[]] 1 0)).getD 0
          }).1.2 = some 1 ∧
    ¬ (1 : Nat) > 1 := by
  decide

/-- C5 (counterexample): `RecordReader::decode_from_vec` is not total — on
the empty buffer it panics (`last_chunk::<4>().unwrap()`), and a buffer whose
8-byte length prefix is zero but whose trailing CRC-32 is valid is decoded
successfully, not rejected (the zero-length check lives only in the IO-level
`RecordReader::decode`). -/
theorem c5_cex_decode_panics_and_accepts_zero_prefix :
    decode_from_vec [] = .panic ∧
    (decode_from_vec
        ((beBytes 0 8 ++ [1] ++ [2] ++ beBytes 1 4 ++ beBytes 0 4 ++ [107]) ++
          beBytes (get_crc_32
            (beBytes 0 8 ++ [1] ++ [2] ++ beBytes 1 4 ++ beBytes 0 4 ++ [107])) 4)).isOk
      = true ∧
    beToNat
      (((beBytes 0 8 ++ [1] ++ [2] ++ beBytes 1 4 ++ beBytes 0 4 ++ [107]) ++
          beBytes (get_crc_32
            (beBytes 0 8 ++ [1] ++ [2] ++ beBytes 1 4 ++ beBytes 0 4 ++ [107])) 4).take 8)
      = 0 := by
  decide

/-- C5 (amended): what the decoder does guarantee: any buffer of at least 4
bytes whose trailing CRC-32 does not match the preceding bytes is rejected
with the CRC error, and the IO-level `decode` rejects a zero length prefix
before ever calling `decode_from_vec`. -/
theorem c5_amended_crc_and_zero_len :
    (∀ buf : List Nat, ¬ buf.length < 4 →
       beToNat (lastN 4 buf) ≠ get_crc_32 (buf.take (buf.length - 4)) →
       decode_from_vec buf = .err .crcMismatch) ∧
    (∀ (file : List Nat) (offset : Nat),
       beToNat (readAt file offset 8) = 0 →
       RecordReader.decode file offset = .err .readSizeZero) := by
  constructor
  · intro buf h4 hcrc
    simp only [decode_from_vec, if_neg h4, if_pos hcrc]
  · intro file offset h
    simp [RecordReader.decode, h]

theorem c5_amended_crc_and_zero_len_witness :
    decode_from_vec [1, 2, 3, 4, 5] = .err .crcMismatch ∧
    RecordReader.decode [] 0 = .err .readSizeZero :=
  ⟨c5_amended_crc_and_zero_len.1 [1, 2, 3, 4, 5] (by decide) (by decide),
   c5_amended_crc_and_zero_len.2 [] 0 (by decide)⟩

/-- C4 (counterexample): the archived-files `HashMap` may enumerate snapshot
{0, 1} as `[1, 0]` (`MergeEnumOk` holds for it, since `keys()` only promises
some permutation), the merge loop then visits file 1 before file 0, and
`[1, 0]` is not ascending. -/
theorem c4_cex_merge_scan_order_not_sorted :
    MergeEnumOk [0] 1 [1, 0] ∧
    (mergeRun [[]] 100 [(1, []), (0, [])]).map MergeAcc.visited = some [1, 0] ∧
    ¬ List.Sorted (· ≤ ·) [1, 0] :=
  ⟨List.Perm.refl _, by decide, by decide⟩

theorem mergeFileStep_visited {indexs : List IndexMap} {acc acc' : MergeAcc}
    {fid : Nat} {file : List Nat}
    (h : mergeFileStep indexs acc fid file = some acc') :
    acc'.visited = acc.visited ++ [fid] := by
  unfold mergeFileStep at h
  cases hs : scanItems file with
  | none => rw [hs] at h; cases h
  | some items =>
    rw [hs] at h
    simp only [Option.some.injEq] at h
    subst h
    rfl

theorem mergeFoldlM_visited (indexs : List IndexMap) (files : List (Nat × List Nat)) :
    ∀ (acc0 acc : MergeAcc),
      files.foldlM (fun acc f => mergeFileStep indexs acc f.1 f.2) acc0 = some acc →
      acc.visited = acc0.visited ++ files.map Prod.fst := by
  induction files with
  | nil =>
    intro acc0 acc h
    simp only [List.foldlM_nil, Option.pure_def, Option.some.injEq] at h
    subst h
    simp
  | cons f fs ih =>
    intro acc0 acc h
    simp only [List.foldlM_cons] at h
    cases hstep : mergeFileStep indexs acc0 f.1 f.2 with
    | none => rw [hstep] at h; simp at h
    | some acc1 =>
      rw [hstep] at h
      simp only [Option.bind_eq_bind, Option.some_bind] at h
      have hv1 := mergeFileStep_visited hstep
      have hv := ih acc1 acc h
      rw [hv, hv1]
      simp

/-- C4 (amended): during `merge()`, the snapshot files — every archived file
plus the just-rotated previous active file — are each scanned exactly once,
in the archived `HashMap`'s unspecified key-enumeration order: the visited
sequence is a permutation of the snapshot ids, not necessarily ascending. -/
theorem c4_amended_merge_scans_snapshot_permutation
    (old_ids : List Nat) (active_id : Nat) (indexs : List IndexMap)
    (max_file_size : Nat) (files : List (Nat × List Nat)) (acc : MergeAcc)
    (henum : MergeEnumOk old_ids active_id (files.map Prod.fst))
    (hrun : mergeRun indexs max_file_size files = some acc) :
    acc.visited.Perm (active_id :: old_ids) := by
  have hv := mergeFoldlM_visited indexs files _ acc hrun
  rw [hv]
  simpa [MergeEnumOk] using henum

theorem c4_amended_merge_scans_snapshot_permutation_witness :
    (⟨⟨100, DFile.new 0, []⟩, [], 0, [1, 0]⟩ : MergeAcc).visited.Perm (1 :: [0]) :=
  c4_amended_merge_scans_snapshot_permutation [0] 1 [[]] 100 [(1, []), (0, [])]
    ⟨⟨100, DFile.new 0, []⟩, [], 0, [1, 0]⟩ (List.Perm.refl _) rfl

theorem append_record_batch_seq (e : Engine) (r : Record) :
    (e.append_record r).2.batch_seq = e.batch_seq := by
  simp only [Engine.append_record, DFile.write_record]
  split <;> rfl

theorem appendPending_batch_seq (seq : Nat) :
    ∀ (l : List (Key × Record)) (e : Engine),
      (appendPending seq l e).2.batch_seq = e.batch_seq := by
  intro l
  induction l with
  | nil => intro e; rfl
  | cons hd t ih =>
    intro e
    simp only [appendPending]
    rcases hp : e.append_record { hd.2 with batch_state := .enable seq } with ⟨pos, e1⟩
    rcases hq : appendPending seq t e1 with ⟨acc, e2⟩
    have h1 : e1.batch_seq = e.batch_seq := by
      have := append_record_batch_seq e { hd.2 with batch_state := .enable seq }
      rw [hp] at this
      exact this
    have h2 : e2.batch_seq = e1.batch_seq := by
      have := ih e1
      rw [hq] at this
      exact this
    simp [hq, h1, h2]

theorem applyBatchIndex_batch_seq :
    ∀ (l : List (Record × RecordPosition)) (e : Engine),
      (applyBatchIndex l e).1.batch_seq = e.batch_seq := by
  intro l
  induction l with
  | nil => intro e; rfl
  | cons hd t ih =>
    intro e
    simp only [applyBatchIndex]
    split
    · split
      · rfl
      · rw [ih]
        rfl
    · split
      · rw [ih]
        rfl
      · rw [ih]
        rfl

theorem commit_assigned (b : BatchWrite) (e : Engine)
    (hne : b.pending ≠ []) (hsz : ¬ b.pending.length > b.max_batch_size) :
    (b.commit e).1.2 = some e.batch_seq ∧
    (b.commit e).2.2.batch_seq = e.batch_seq + 1 := by
  unfold BatchWrite.commit
  simp only []
  rw [if_neg hne, if_neg hsz]
  rcases happ : appendPending e.batch_seq b.pending { e with batch_seq := e.batch_seq + 1 }
    with ⟨idx, e1⟩
  rcases hfin : e1.append_record (Record.batch_finished e.batch_seq) with ⟨p2, e2⟩
  have h1 : e1.batch_seq = e.batch_seq + 1 := by
    have := appendPending_batch_seq e.batch_seq b.pending { e with batch_seq := e.batch_seq + 1 }
    rw [happ] at this
    exact this
  have h2 : e2.batch_seq = e1.batch_seq := by
    have := append_record_batch_seq e1 (Record.batch_finished e.batch_seq)
    rw [hfin] at this
    exact this
  have h3 : (applyBatchIndex idx e2).1.batch_seq = e2.batch_seq :=
    applyBatchIndex_batch_seq idx e2
  simp only [happ, hfin]
  rcases hab : applyBatchIndex idx e2 with ⟨e3, err⟩
  have h4 : e3.batch_seq = e2.batch_seq := by rw [← h3, hab]
  cases err <;> simp <;> omega

theorem rUpdateIndex_seq {st : RState} {r : Record} {pos : RecordPosition} {st' : RState}
    (h : rUpdateIndex st r pos = .ok st') : st'.seq = st.seq := by
  simp only [rUpdateIndex, imPut] at h
  split at h
  · split at h
    · cases h
    · simp only [RRes.ok.injEq] at h
      subst h
      rfl
  · split at h <;>
      (simp only [RRes.ok.injEq] at h; subst h; rfl)

theorem rApplyBatch_seq {pos : RecordPosition} :
    ∀ {recs : List Record} {st st' : RState},
      rApplyBatch pos recs st = .ok st' → st'.seq = st.seq := by
  intro recs
  induction recs with
  | nil =>
    intro st st' h
    simp only [rApplyBatch, RRes.ok.injEq] at h
    subst h
    rfl
  | cons r t ih =>
    intro st st' h
    simp only [rApplyBatch] at h
    cases hu : rUpdateIndex st r pos with
    | ok st1 =>
      rw [hu] at h
      rw [ih h, rUpdateIndex_seq hu]
    | err e => rw [hu] at h; cases h
    | panic => rw [hu] at h; cases h

theorem replayStep_seq_mono {fid : Nat} {st st' : RState} {item : ScanItem}
    (h : replayStep fid st item = .ok st') : st.seq ≤ st'.seq := by
  rcases item with ⟨off, sz, r⟩
  simp only [replayStep] at h
  split at h
  · simp only [RRes.ok.injEq] at h
    subst h
    exact le_refl _
  · rename_i seq _
    split at h
    · cases h
    · rename_i recs m' _
      cases hap : rApplyBatch (RecordPosition.new fid off sz) recs
          { indexs := st.indexs, batch_map := m', seq := st.seq, reclaimable := st.reclaimable } with
      | ok st1 =>
        rw [hap] at h
        simp only [RRes.ok.injEq] at h
        subst h
        have hseq := rApplyBatch_seq hap
        simp only [hseq]
        split <;> omega
      | err e2 => rw [hap] at h; cases h
      | panic => rw [hap] at h; cases h
  · have := rUpdateIndex_seq h
    omega

theorem replayStep_finish_le {fid : Nat} {st st' : RState} {off sz : Nat} {r : Record}
    {q : Nat} (h : replayStep fid st (off, sz, r) = .ok st')
    (hb : r.batch_state = .finish q) : q ≤ st'.seq := by
  simp only [replayStep, hb] at h
  split at h
  · cases h
  · rename_i recs m' _
    cases hap : rApplyBatch (RecordPosition.new fid off sz) recs
        { indexs := st.indexs, batch_map := m', seq := st.seq, reclaimable := st.reclaimable } with
    | ok st1 =>
      rw [hap] at h
      simp only [RRes.ok.injEq] at h
      subst h
      split
      · exact le_refl _
      · rename_i hlt
        exact Nat.le_of_not_lt hlt
    | err e2 => rw [hap] at h; cases h
    | panic => rw [hap] at h; cases h

theorem replayItems_seq_mono {fid : Nat} :
    ∀ {items : List ScanItem} {st st' : RState},
      replayItems fid items st = .ok st' → st.seq ≤ st'.seq := by
  intro items
  induction items with
  | nil =>
    intro st st' h
    simp only [replayItems, RRes.ok.injEq] at h
    subst h
    exact le_refl _
  | cons item rest ih =>
    intro st st' h
    simp only [replayItems] at h
    cases hs : replayStep fid st item with
    | ok st1 =>
      rw [hs] at h
      exact le_trans (replayStep_seq_mono hs) (ih h)
    | err e => rw [hs] at h; cases h
    | panic => rw [hs] at h; cases h

/-- C3 (amended): within one open session consecutive commits are assigned
strictly increasing sequences (`fetch_add` hands out `batch_seq` and bumps
it), but across a close/reopen `batch_seq` is only restored to the largest
`Finish` sequence seen during replay, so the restored value is at least — not
strictly greater than — every sequence already in the log, and the first
commit after reopen reuses that largest sequence (see the counterexample). -/
theorem c3_amended_seq_monotonic_in_session :
    (∀ (e : Engine) (b1 b2 : BatchWrite),
      b1.pending ≠ [] → ¬ b1.pending.length > b1.max_batch_size →
      b2.pending ≠ [] → ¬ b2.pending.length > b2.max_batch_size →
      (b1.commit e).1.2 = some e.batch_seq ∧
      (b2.commit (b1.commit e).2.2).1.2 = some (e.batch_seq + 1) ∧
      e.batch_seq < e.batch_seq + 1) ∧
    (∀ (fid : Nat) (items : List ScanItem) (st st' : RState),
      replayItems fid items st = .ok st' →
      st.seq ≤ st'.seq ∧
      ∀ off sz r q, (off, sz, r) ∈ items → r.batch_state = .finish q → q ≤ st'.seq) := by
  constructor
  · intro e b1 b2 hne1 hsz1 hne2 hsz2
    obtain ⟨ha1, ha2⟩ := commit_assigned b1 e hne1 hsz1
    obtain ⟨hb1, _⟩ := commit_assigned b2 (b1.commit e).2.2 hne2 hsz2
    rw [ha2] at hb1
    exact ⟨ha1, hb1, by omega⟩
  · intro fid items
    induction items with
    | nil =>
      intro st st' h
      refine ⟨replayItems_seq_mono h, ?_⟩
      intro off sz r q hmem
      cases hmem
    | cons item rest ih =>
      intro st st' h
      refine ⟨replayItems_seq_mono h, ?_⟩
      intro off sz r q hmem hb
      have h' := h
      simp only [replayItems] at h'
      cases hs : replayStep fid st item with
      | ok st1 =>
        rw [hs] at h'
        rcases List.mem_cons.mp hmem with hhead | htail
        · subst hhead
          exact le_trans (replayStep_finish_le hs hb) (replayItems_seq_mono h')
        · exact (ih st1 st' h').2 off sz r q htail hb
      | err e => rw [hs] at h'; cases h'
      | panic => rw [hs] at h'; cases h'

theorem c3_amended_seq_monotonic_in_session_witness :
    (((⟨[([107], Record.normal [107] [118])], 100, false⟩ : BatchWrite).commit
        (Engine.fresh 1 1000000 false)).1.2 = some 1 ∧
      ((⟨[([109], Record.normal [109] [120])], 100, false⟩ : BatchWrite).commit
        ((⟨[([107], Record.normal [107] [118])], 100, false⟩ : BatchWrite).commit
          (Engine.fresh 1 1000000 false)).2.2).1.2 = some (1 + 1) ∧
      (1 : Nat) < 1 + 1) ∧
    ((⟨[[]], [], 1, 0⟩ : RState).seq ≤
        (⟨[[([107], ⟨0, 32, 32⟩)]], [], 3, 0⟩ : RState).seq ∧
      ∀ off sz r q,
        (off, sz, r) ∈
          [((0 : Nat), (32 : Nat), (⟨.normal, [107], [118], .enable 3⟩ : Record)),
           (32, 32, (⟨.normal, bfKey, [], .finish 3⟩ : Record))] →
        r.batch_state = .finish q →
        q ≤ (⟨[[([107], ⟨0, 32, 32⟩)]], [], 3, 0⟩ : RState).seq) :=
  ⟨c3_amended_seq_monotonic_in_session.1 (Engine.fresh 1 1000000 false)
      ⟨[([107], Record.normal [107] [118])], 100, false⟩
      ⟨[([109], Record.normal [109] [120])], 100, false⟩
      (by decide) (by decide) (by decide) (by decide),
    c3_amended_seq_monotonic_in_session.2 0
      [(0, 32, ⟨.normal, [107], [118], .enable 3⟩), (32, 32, ⟨.normal, bfKey, [], .finish 3⟩)]
      ⟨[[]], [], 1, 0⟩ ⟨[[([107], ⟨0, 32, 32⟩)]], [], 3, 0⟩ rfl⟩

theorem get_encode_len_ge (r : Record) : 22 ≤ r.get_encode_len := by
  obtain ⟨rt, key, value, bs⟩ := r
  cases bs <;> simp [Record.get_encode_len] <;> omega

theorem recordTypeOfByte_typeByte (rt : RecordType) :
    recordTypeOfByte rt.typeByte = some rt := by
  cases rt <;> rfl

theorem not_append_length_lt {l x : List Nat} {n : Nat} (h : l.length = n) :
    ¬ (l ++ x).length < n := by
  simp [List.length_append, h]

theorem parseLens_spec (rt : RecordType) (bs : BatchState) (start : Nat)
    (key value rest buf : List Nat)
    (hk : key.length < 2 ^ 32) (hv : value.length < 2 ^ 32) :
    parseLens rt bs start
      (beBytes key.length 4 ++ (beBytes value.length 4 ++ rest)) buf =
      .ok ⟨buf, start, key.length, value.length, rt, bs⟩ := by
  unfold parseLens
  rw [if_neg (not_append_length_lt (beBytes_length _ 4)),
    List.take_left' (beBytes_length _ 4), List.drop_left' (beBytes_length _ 4),
    if_neg (not_append_length_lt (beBytes_length _ 4)),
    List.take_left' (beBytes_length _ 4),
    beToNat_beBytes hk, beToNat_beBytes hv]

theorem reader_to_record (buf : List Nat) (start : Nat) (key value tail : List Nat)
    (rt : RecordType) (bs : BatchState)
    (hdrop : buf.drop start = key ++ (value ++ tail)) :
    RecordReader.to_record ⟨buf, start, key.length, value.length, rt, bs⟩ =
      ⟨rt, key, value, bs⟩ := by
  unfold RecordReader.to_record RecordReader.key RecordReader.value
  have hkey : (buf.drop start).take key.length = key := by
    rw [hdrop]
    exact List.take_left _ _
  have hval : (buf.drop (start + key.length)).take value.length = value := by
    rw [← List.drop_drop, hdrop, List.drop_left]
    exact List.take_left _ _
  simp only [hkey, hval]

/-- C7: encode-then-decode round trip.  For every record whose key and value
lengths fit in `u32` (and whose batch sequence fits in the `u64` that stores
it — automatic for any record the Rust source can construct),
`RecordReader::decode_from_vec(r.encode())` succeeds and `to_record()` yields
a record equal to `r` in all four fields, and `r.encode()` produces exactly
`r.get_encode_len()` bytes. -/
theorem c7_encode_decode_roundtrip (r : Record)
    (hk : r.key.length < 2 ^ 32) (hv : r.value.length < 2 ^ 32) (hs : r.seq_wf) :
    decodeRecordOf r.encode = some r ∧ r.encode.length = r.get_encode_len := by
  refine ⟨?_, encode_length r⟩
  have hel := encode_length r
  have hge := get_encode_len_ge r
  have h4 : ¬ r.encode.length < 4 := by omega
  have h8 : ¬ r.encode.length < 8 := by omega
  have hlast : lastN 4 r.encode = beBytes (get_crc_32 r.encodeBody) 4 :=
    lastN_append (beBytes_length _ 4)
  have htake : r.encode.take (r.encode.length - 4) = r.encodeBody := by
    apply List.take_left'
    have hb : r.encode.length = r.encodeBody.length + 4 := by
      simp [Record.encode, beBytes_length]
    omega
  have hcrc : ¬ beToNat (lastN 4 r.encode) ≠
      get_crc_32 (r.encode.take (r.encode.length - 4)) := by
    rw [htake, hlast, beToNat_beBytes (get_crc_32_lt _)]
    exact not_not_intro rfl
  have hdrop8 : r.encode.drop 8 =
      r.record_type.typeByte ::
        (batchTagBytes r.batch_state ++
          (beBytes r.key.length 4 ++
            (beBytes r.value.length 4 ++
              (r.key ++ (r.value ++ beBytes (get_crc_32 r.encodeBody) 4))))) := by
    have hshape : r.encode =
        beBytes r.get_encode_len 8 ++
          (r.record_type.typeByte ::
            (batchTagBytes r.batch_state ++
              (beBytes r.key.length 4 ++
                (beBytes r.value.length 4 ++
                  (r.key ++ (r.value ++ beBytes (get_crc_32 r.encodeBody) 4)))))) := by
      simp [Record.encode, Record.encodeBody, List.append_assoc]
    rw [hshape]
    exact List.drop_left' (beBytes_length _ 8)
  unfold decodeRecordOf
  rcases hbs : r.batch_state with q | q | _
  · -- Enable(q)
    have hq : q < 2 ^ (8 * 8) := by
      have hw := hs
      unfold Record.seq_wf at hw
      rw [hbs] at hw
      exact hw
    have hq8 : beToNat (beBytes q 8) = q := beToNat_beBytes hq
    have hdropS : r.encode.drop (8 + 1 + 9 + 4 + 4) =
        r.key ++ (r.value ++ beBytes (get_crc_32 r.encodeBody) 4) := by
      have hshape2 : r.encode =
          (beBytes r.get_encode_len 8 ++
            (r.record_type.typeByte :: (0 :: (beBytes q 8 ++
              (beBytes r.key.length 4 ++ beBytes r.value.length 4))))) ++
            (r.key ++ (r.value ++ beBytes (get_crc_32 r.encodeBody) 4)) := by
        simp [Record.encode, Record.encodeBody, batchTagBytes, hbs, List.append_assoc]
      rw [hshape2]
      apply List.drop_left'
      simp [beBytes_length]
    rw [hbs] at hdrop8
    simp only [decode_from_vec, if_neg h4, if_neg hcrc, if_neg h8, hdrop8,
      recordTypeOfByte_typeByte, batchTagBytes, List.cons_append,
      if_neg (not_append_length_lt (beBytes_length q 8)),
      List.take_left' (beBytes_length q 8), List.drop_left' (beBytes_length q 8),
      hq8, if_pos rfl, if_true,
      parseLens_spec r.record_type (BatchState.enable q) (8 + 1 + 9 + 4 + 4)
        r.key r.value (r.key ++ (r.value ++ beBytes (get_crc_32 r.encodeBody) 4))
        r.encode hk hv,
      reader_to_record r.encode (8 + 1 + 9 + 4 + 4) r.key r.value
        (beBytes (get_crc_32 r.encodeBody) 4) r.record_type (BatchState.enable q) hdropS]
    rw [← hbs]
  · -- Finish(q)
    have hq : q < 2 ^ (8 * 8) := by
      have hw := hs
      unfold Record.seq_wf at hw
      rw [hbs] at hw
      exact hw
    have hq8 : beToNat (beBytes q 8) = q := beToNat_beBytes hq
    have hdropS : r.encode.drop (8 + 1 + 9 + 4 + 4) =
        r.key ++ (r.value ++ beBytes (get_crc_32 r.encodeBody) 4) := by
      have hshape2 : r.encode =
          (beBytes r.get_encode_len 8 ++
            (r.record_type.typeByte :: (1 :: (beBytes q 8 ++
              (beBytes r.key.length 4 ++ beBytes r.value.length 4))))) ++
            (r.key ++ (r.value ++ beBytes (get_crc_32 r.encodeBody) 4)) := by
        simp [Record.encode, Record.encodeBody, batchTagBytes, hbs, List.append_assoc]
      rw [hshape2]
      apply List.drop_left'
      simp [beBytes_length]
    rw [hbs] at hdrop8
    simp only [decode_from_vec, if_neg h4, if_neg hcrc, if_neg h8, hdrop8,
      recordTypeOfByte_typeByte, batchTagBytes, List.cons_append,
      if_neg (by norm_num : ¬ (1 : Nat) = 0), if_pos rfl, if_true,
      if_neg (not_append_length_lt (beBytes_length q 8)),
      List.take_left' (beBytes_length q 8), List.drop_left' (beBytes_length q 8),
      hq8,
      parseLens_spec r.record_type (BatchState.finish q) (8 + 1 + 9 + 4 + 4)
        r.key r.value (r.key ++ (r.value ++ beBytes (get_crc_32 r.encodeBody) 4))
        r.encode hk hv,
      reader_to_record r.encode (8 + 1 + 9 + 4 + 4) r.key r.value
        (beBytes (get_crc_32 r.encodeBody) 4) r.record_type (BatchState.finish q) hdropS]
    rw [← hbs]
  · -- Disable
    have hdropS : r.encode.drop (8 + 1 + 1 + 4 + 4) =
        r.key ++ (r.value ++ beBytes (get_crc_32 r.encodeBody) 4) := by
      have hshape2 : r.encode =
          (beBytes r.get_encode_len 8 ++
            (r.record_type.typeByte :: (2 ::
              (beBytes r.key.length 4 ++ beBytes r.value.length 4)))) ++
            (r.key ++ (r.value ++ beBytes (get_crc_32 r.encodeBody) 4)) := by
        simp [Record.encode, Record.encodeBody, batchTagBytes, hbs, List.append_assoc]
      rw [hshape2]
      apply List.drop_left'
      simp [beBytes_length]
    rw [hbs] at hdrop8
    simp only [decode_from_vec, if_neg h4, if_neg hcrc, if_neg h8, hdrop8,
      recordTypeOfByte_typeByte, batchTagBytes, List.cons_append, List.nil_append,
      if_neg (by norm_num : ¬ (2 : Nat) = 0), if_neg (by norm_num : ¬ (2 : Nat) = 1),
      if_pos rfl, if_true,
      parseLens_spec r.record_type BatchState.disable (8 + 1 + 1 + 4 + 4)
        r.key r.value (r.key ++ (r.value ++ beBytes (get_crc_32 r.encodeBody) 4))
        r.encode hk hv,
      reader_to_record r.encode (8 + 1 + 1 + 4 + 4) r.key r.value
        (beBytes (get_crc_32 r.encodeBody) 4) r.record_type BatchState.disable hdropS]
    rw [← hbs]

theorem c7_encode_decode_roundtrip_witness :
    decodeRecordOf (⟨.normal, [107], [118, 119], .enable 7⟩ : Record).encode =
      some ⟨.normal, [107], [118, 119], .enable 7⟩ ∧
    (⟨.normal, [107], [118, 119], .enable 7⟩ : Record).encode.length =
      (⟨.normal, [107], [118, 119], .enable 7⟩ : Record).get_encode_len :=
  c7_encode_decode_roundtrip ⟨.normal, [107], [118, 119], .enable 7⟩
    (by decide) (by decide) (show (7 : Nat) < 2 ^ 64 by norm_num)
